import Mathlib

/-
Verification of the RankMetric (precision_at_n / custom_average_precision /
adj_ave_precision) and CusumDetector (cusum) utilities of the
Anomaly_Detection repository.

Scores and values are embedded as rationals; Python lists as Lean lists.
Python `sorted` on (score, label) tuples is embedded as a stable sort by the
lexicographic tuple order (score first, then label with False < True), which
determines the output uniquely because the order is linear.
NumPy scalar division is embedded by `npDiv`: NumPy emits a warning and
produces nan (0/0) or a signed infinity (x/0, x nonzero) instead of raising.
-/

namespace AnomalyDetection

open List

/-- Python tuple comparison on (score, label) pairs: score first, on a tie
compare the labels, with False before True. -/
def tupLe (a b : ℚ × Bool) : Prop :=
  a.1 < b.1 ∨ (a.1 = b.1 ∧ (a.2 → b.2))

instance : DecidableRel tupLe := fun a b => by
  unfold tupLe; exact inferInstance

instance : IsTotal (ℚ × Bool) tupLe := by
  constructor
  intro a b
  rcases lt_trichotomy a.1 b.1 with h | h | h
  · exact Or.inl (Or.inl h)
  · by_cases hab : (a.2 → b.2)
    · exact Or.inl (Or.inr ⟨h, hab⟩)
    · push_neg at hab
      exact Or.inr (Or.inr ⟨h.symm, fun hb => absurd hb hab.2⟩)
  · exact Or.inr (Or.inl h)

instance : IsTrans (ℚ × Bool) tupLe := by
  constructor
  rintro a b c (h₁ | ⟨h₁, h₁'⟩) (h₂ | ⟨h₂, h₂'⟩)
  · exact Or.inl (h₁.trans h₂)
  · exact Or.inl (h₂ ▸ h₁)
  · exact Or.inl (h₁ ▸ h₂)
  · exact Or.inr ⟨h₁.trans h₂, fun h => h₂' (h₁' h)⟩

instance : IsAntisymm (ℚ × Bool) tupLe := by
  constructor
  rintro ⟨a1, a2⟩ ⟨b1, b2⟩ (h₁ | ⟨h₁, h₁'⟩) (h₂ | ⟨h₂, h₂'⟩)
  · exact absurd h₂ (lt_asymm h₁)
  · exact absurd (h₂ ▸ h₁) (lt_irrefl _)
  · exact absurd (h₁ ▸ h₂) (lt_irrefl _)
  · have h2 : a2 = b2 := by cases a2 <;> cases b2 <;> simp_all
    simp_all

/-- Embedding of Python `sorted(zip(y_scores, y_is_anomaly_true))`: a stable
sort by the tuple order. -/
def pySorted (l : List (ℚ × Bool)) : List (ℚ × Bool) :=
  l.insertionSort tupLe

/-- Python `sum` of a boolean list: the number of True entries. -/
def countTrue (l : List Bool) : ℕ :=
  l.countP id

/-- Embedding of the notebook function `precision_at_n(y_is_anomaly_true,
y_scores, n_max=0)`.  There is no input validation: `zip` truncates to the
shorter list, `if not n_max` only fires for `n_max == 0`, and
`range(1, n_max+1)` is empty for negative `n_max`.  `sorted_labels[:n]`
returns the whole list when `n` exceeds its length. -/
def precision_at_n (y_is_anomaly_true : List Bool) (y_scores : List ℚ)
    (n_max : ℤ) : List ℚ :=
  let m : ℤ := if n_max = 0 then (y_scores.length : ℤ) else n_max
  let is_anomaly_sorted_by_score :=
    (pySorted (y_scores.zip y_is_anomaly_true)).map Prod.snd
  (List.range m.toNat).map fun k =>
    (countTrue (is_anomaly_sorted_by_score.take (k + 1)) : ℚ) / (k + 1)

/-- Result of a NumPy scalar arithmetic expression: a finite value, nan, or a
signed infinity. -/
inductive PyFloat where
  | num (q : ℚ)
  | nan
  | inf
  | ninf
deriving DecidableEq

/-- NumPy float division: division by zero does not raise, it warns and
produces nan (for 0/0) or a signed infinity. -/
def npDiv (a b : ℚ) : PyFloat :=
  if b = 0 then
    if a = 0 then PyFloat.nan else if 0 < a then PyFloat.inf else PyFloat.ninf
  else PyFloat.num (a / b)

/-- Embedding of the notebook function `custom_average_precision`.
Note the source passes the SORTED labels `is_anomaly` together with the
UNSORTED scores `y_scores` into `precision_at_n`, which re-sorts that
mismatched pairing.  On an empty input `np.array([])[:, 0]` raises an
IndexError; otherwise the final NumPy division never raises. -/
def custom_average_precision (y_is_anomaly_true : List Bool)
    (y_scores : List ℚ) : Except String PyFloat :=
  let sorted_scores_and_truth := pySorted (y_scores.zip y_is_anomaly_true)
  if sorted_scores_and_truth.isEmpty then Except.error "IndexError"
  else
    let is_anomaly := sorted_scores_and_truth.map Prod.snd
    let p_at_n := precision_at_n is_anomaly y_scores 0
    let indicator : List ℚ := is_anomaly.map fun b => if b then 1 else 0
    Except.ok
      (npDiv ((indicator.zip p_at_n).map fun p => p.1 * p.2).sum indicator.sum)

/-- Embedding of the notebook expression
`adj_ave_precision = (ave_precision - frac_anomalies) / (1 - frac_anomalies)`
(NumPy float arithmetic). -/
def adj_ave_precision (ave_precision frac_anomalies : ℚ) : PyFloat :=
  npDiv (ave_precision - frac_anomalies) (1 - frac_anomalies)

/-- Embedding of the loop body state of `cusum`: processes the remaining
points given the current (high_sum, low_sum) accumulator, returning the list
of recorded (high_sum, low_sum) pairs and the collected anomalies. -/
def cusumGo (mean shift threshold : ℚ) :
    ℚ × ℚ → List (ℕ × ℚ) → List (ℚ × ℚ) × List (ℕ × ℚ)
  | _, [] => ([], [])
  | (high_sum, low_sum), (index, item) :: rest =>
    let high_sum' := max 0 (high_sum + item - mean - shift)
    let low_sum' := min 0 (low_sum + item - mean + shift)
    let r := cusumGo mean shift threshold (high_sum', low_sum') rest
    ((high_sum', low_sum') :: r.1,
      if threshold < high_sum' ∨ low_sum' < -threshold then
        (index, item) :: r.2
      else r.2)

/-- Embedding of the notebook function `cusum(data, mean, shift, threshold)`.
The series is a list of (index, value) points; the result pairs every input
point with its recorded running (high_sum, low_sum) (the assigned High_Cusum
and Low_Cusum columns), together with the anomaly list.  The source performs
no validation of `shift` or `threshold`. -/
def cusum (data : List (ℕ × ℚ)) (mean shift threshold : ℚ) :
    List ((ℕ × ℚ) × ℚ × ℚ) × List (ℕ × ℚ) :=
  let r := cusumGo mean shift threshold (0, 0) data
  (data.zip r.1, r.2)

/-! Spec-side definitions, written from the specification's words, used to
compare the specified behaviour with the behaviour of the embedded code. -/

/-- Count of entries with a true label among a list of (score, label) pairs. -/
def cntSnd (l : List (ℚ × Bool)) : ℕ :=
  l.countP fun p => p.2

/-- Spec-modelled validation wrapper for `precision_at_n`: the spec says the
operation fails with InvalidArgument if the lengths differ, if `n_max`
exceeds the sequence length, or if `n_max` is negative. -/
def precision_at_n_spec (labels : List Bool) (scores : List ℚ)
    (n_max : ℤ) : Except String (List ℚ) :=
  if labels.length ≠ scores.length then Except.error "InvalidArgument"
  else if n_max < 0 then Except.error "InvalidArgument"
  else if (scores.length : ℤ) < n_max then Except.error "InvalidArgument"
  else Except.ok (precision_at_n labels scores n_max)

/-- Spec-side definition of average precision: the mean of the P@n values
taken only at the ranks (in ascending-by-score order) where a true anomaly
occurs, normalized by the total anomaly count; undefined with no anomalies. -/
def average_precision_spec (labels : List Bool) (scores : List ℚ) :
    Option ℚ :=
  let lbl := (pySorted (scores.zip labels)).map Prod.snd
  let k := countTrue lbl
  if k = 0 then none
  else some
    ((((List.range lbl.length).map fun j =>
        if lbl.getD j false then (countTrue (lbl.take (j + 1)) : ℚ) / (j + 1)
        else 0).sum) / k)

/-- Spec-modelled validation wrapper for the CUSUM detector: the spec says
detect fails with InvalidArgument exactly when `shift < 0` or
`threshold < 0`. -/
def detect_spec (data : List (ℕ × ℚ)) (mean shift threshold : ℚ) :
    Except String (List ((ℕ × ℚ) × ℚ × ℚ) × List (ℕ × ℚ)) :=
  if shift < 0 ∨ threshold < 0 then Except.error "InvalidArgument"
  else Except.ok (cusum data mean shift threshold)

/-- One CUSUM update, as written in the spec: from the running pair and a
value, `high_sum = max(0, high_sum + value - mean - shift)` and
`low_sum = min(0, low_sum + value - mean + shift)`. -/
def cusumStep (mean shift : ℚ) (p : ℚ × ℚ) (x : ℚ) : ℚ × ℚ :=
  (max 0 (p.1 + x - mean - shift), min 0 (p.2 + x - mean + shift))

/-- Spec-side running sums: starting from (0, 0), the recorded running
(high_sum, low_sum) pair after each point, in time order. -/
def cusumSpecSums (mean shift : ℚ) (xs : List ℚ) : List (ℚ × ℚ) :=
  (xs.scanl (cusumStep mean shift) (0, 0)).tail

/-- Final accumulator state after processing a list of values. -/
def cusumFinal (mean shift : ℚ) (st : ℚ × ℚ) (xs : List ℚ) : ℚ × ℚ :=
  xs.foldl (cusumStep mean shift) st

/-- The anomaly flag of the cusum loop, as a Boolean test on a recorded
running-sums pair. -/
def cusumFlag (threshold : ℚ) (p : (ℕ × ℚ) × ℚ × ℚ) : Bool :=
  decide (threshold < p.2.1 ∨ p.2.2 < -threshold)

/-- Comparison of (score, label) pairs by score alone. -/
def scoreLe (x y : ℚ × Bool) : Prop :=
  x.1 ≤ y.1

/-! Helper lemmas about the rank metrics. -/

lemma pySorted_perm (l : List (ℚ × Bool)) : pySorted l ~ l :=
  List.perm_insertionSort _ l

lemma pySorted_sorted (l : List (ℚ × Bool)) : (pySorted l).Sorted tupLe :=
  List.sorted_insertionSort _ l

lemma precision_at_n_length (labels : List Bool) (scores : List ℚ)
    (n_max : ℤ) :
    (precision_at_n labels scores n_max).length =
      (if n_max = 0 then (scores.length : ℤ) else n_max).toNat := by
  simp [precision_at_n]

lemma precision_at_n_getElem (labels : List Bool) (scores : List ℚ)
    (n_max : ℤ) (k : ℕ)
    (hk : k < (if n_max = 0 then (scores.length : ℤ) else n_max).toNat) :
    (precision_at_n labels scores n_max)[k]? =
      some ((countTrue
        (((pySorted (scores.zip labels)).map Prod.snd).take (k + 1)) : ℚ) /
        (k + 1)) := by
  unfold precision_at_n
  rw [List.getElem?_map, List.getElem?_range hk]
  rfl

lemma countTrue_take_le (l : List Bool) (n : ℕ) : countTrue (l.take n) ≤ n :=
  le_trans (List.countP_le_length _) (le_trans (List.length_take n l).le
    (min_le_left _ _))

lemma precision_at_n_mem_unit (labels : List Bool) (scores : List ℚ)
    (n_max : ℤ) :
    ∀ x ∈ precision_at_n labels scores n_max, 0 ≤ x ∧ x ≤ 1 := by
  intro x hx
  unfold precision_at_n at hx
  obtain ⟨k, _, rfl⟩ := List.mem_map.mp hx
  constructor
  · positivity
  · rw [div_le_one (by positivity)]
    have h := countTrue_take_le
      ((pySorted (scores.zip labels)).map Prod.snd) (k + 1)
    calc (countTrue (((pySorted (scores.zip labels)).map Prod.snd).take
          (k + 1)) : ℚ) ≤ ((k + 1 : ℕ) : ℚ) := by exact_mod_cast h
      _ = (k : ℚ) + 1 := by push_cast; ring

lemma countTrue_pySorted_zip (labels : List Bool) (scores : List ℚ)
    (h : labels.length = scores.length) :
    countTrue ((pySorted (scores.zip labels)).map Prod.snd) =
      countTrue labels := by
  unfold countTrue
  rw [List.countP_map, List.Perm.countP_eq _ (pySorted_perm _),
    ← List.countP_map, List.map_snd_zip scores labels (le_of_eq h)]

lemma zip_take_length (scores : List ℚ) (labels : List Bool) :
    scores.zip (labels.take scores.length) = scores.zip labels := by
  induction scores generalizing labels with
  | nil => simp
  | cons s ss ih =>
    cases labels with
    | nil => simp
    | cons l ls => simp [List.zip_cons_cons, ih]

lemma indicator_sum (l : List Bool) :
    ((l.map fun b => if b then (1 : ℚ) else 0).sum) = countTrue l := by
  unfold countTrue
  induction l with
  | nil => simp
  | cons b l ih =>
    cases b <;> simp [List.countP_cons, ih] <;> ring

lemma indicator_prod_sum_zero (l : List Bool) (q : List ℚ)
    (h : ∀ b ∈ l, b = false) :
    (((l.map fun b => if b then (1 : ℚ) else 0).zip q).map
      fun p => p.1 * p.2).sum = 0 := by
  induction l generalizing q with
  | nil => simp
  | cons b l ih =>
    cases q with
    | nil => simp
    | cons x q =>
      have hb : b = false := h b (List.mem_cons_self b l)
      subst hb
      simp only [List.map_cons, List.zip_cons_cons, List.sum_cons]
      rw [ih q fun c hc => h c (List.mem_cons_of_mem _ hc)]
      simp

/-! Helper lemmas about the CUSUM detector. -/

lemma scanl_eq_cons_tail {α β : Type} (f : β → α → β) (b : β) (l : List α) :
    List.scanl f b l = b :: (List.scanl f b l).tail := by
  cases l <;> simp [List.scanl_cons]

lemma cusumGo_fst (m s t : ℚ) (st : ℚ × ℚ) (pts : List (ℕ × ℚ)) :
    (cusumGo m s t st pts).1 =
      ((pts.map Prod.snd).scanl (cusumStep m s) st).tail := by
  induction pts generalizing st with
  | nil => simp [cusumGo]
  | cons p rest ih =>
    obtain ⟨hs, ls⟩ := st
    obtain ⟨i, x⟩ := p
    simp only [cusumGo, List.map_cons, List.scanl_cons, List.cons_append,
      List.nil_append, List.tail_cons]
    rw [ih, ← scanl_eq_cons_tail]
    rfl

lemma cusumGo_snd (m s t : ℚ) (st : ℚ × ℚ) (pts : List (ℕ × ℚ)) :
    (cusumGo m s t st pts).2 =
      ((pts.zip (cusumGo m s t st pts).1).filter (cusumFlag t)).map
        Prod.fst := by
  induction pts generalizing st with
  | nil => simp [cusumGo]
  | cons p rest ih =>
    obtain ⟨hs, ls⟩ := st
    obtain ⟨i, x⟩ := p
    by_cases hflag : t < max 0 (hs + x - m - s) ∨
        min 0 (ls + x - m + s) < -t
    · have hd : cusumFlag t ((i, x), max 0 (hs + x - m - s),
          min 0 (ls + x - m + s)) = true := decide_eq_true hflag
      simp only [cusumGo, List.zip_cons_cons, List.filter_cons, hd,
        if_pos hflag, if_true, List.map_cons]
      rw [ih]
    · have hd : cusumFlag t ((i, x), max 0 (hs + x - m - s),
          min 0 (ls + x - m + s)) = false := decide_eq_false hflag
      simp only [cusumGo, List.zip_cons_cons, List.filter_cons, hd,
        if_neg hflag, Bool.false_eq_true, if_false]
      rw [ih]

lemma cusumGo_fst_length (m s t : ℚ) (st : ℚ × ℚ) (pts : List (ℕ × ℚ)) :
    (cusumGo m s t st pts).1.length = pts.length := by
  induction pts generalizing st with
  | nil => simp [cusumGo]
  | cons p rest ih =>
    obtain ⟨hs, ls⟩ := st
    obtain ⟨i, x⟩ := p
    simp [cusumGo, ih]

lemma cusumGo_append (m s t : ℚ) (st : ℚ × ℚ) (l₁ l₂ : List (ℕ × ℚ)) :
    cusumGo m s t st (l₁ ++ l₂) =
      ((cusumGo m s t st l₁).1 ++
        (cusumGo m s t (cusumFinal m s st (l₁.map Prod.snd)) l₂).1,
       (cusumGo m s t st l₁).2 ++
        (cusumGo m s t (cusumFinal m s st (l₁.map Prod.snd)) l₂).2) := by
  induction l₁ generalizing st with
  | nil => simp [cusumGo, cusumFinal]
  | cons p rest ih =>
    obtain ⟨hs, ls⟩ := st
    obtain ⟨i, x⟩ := p
    simp only [List.cons_append, cusumGo, cusumFinal, List.map_cons,
      List.foldl_cons, List.append_eq]
    rw [ih]
    have hstep : cusumStep m s (hs, ls) x =
        (max 0 (hs + x - m - s), min 0 (ls + x - m + s)) := rfl
    rw [hstep]
    simp only [Prod.mk.injEq]
    refine ⟨rfl, ?_⟩
    split <;> simp [cusumFinal]

lemma cusum_fst_length (xs : List (ℕ × ℚ)) (m s t : ℚ) :
    (cusum xs m s t).1.length = xs.length := by
  unfold cusum
  simp [List.length_zip, cusumGo_fst_length]

lemma cusum_fst_take (xs : List (ℕ × ℚ)) (m s t : ℚ) (i : ℕ) :
    (cusum xs m s t).1.take i = (cusum (xs.take i) m s t).1 := by
  by_cases hi : i ≤ xs.length
  · conv_lhs => rw [← List.take_append_drop i xs]
    show ((((xs.take i) ++ xs.drop i).zip
      (cusumGo m s t (0, 0) ((xs.take i) ++ xs.drop i)).1).take i) = _
    rw [cusumGo_append]
    have hlen₁ : (cusumGo m s t (0, 0) (xs.take i)).1.length =
        (xs.take i).length := cusumGo_fst_length _ _ _ _ _
    rw [List.zip_append hlen₁.symm]
    rw [List.take_left' (by
      rw [List.length_zip, hlen₁, List.length_take]
      omega)]
    rfl
  · push_neg at hi
    rw [List.take_of_length_le (le_of_lt hi),
      List.take_of_length_le (by rw [cusum_fst_length]; omega)]

lemma cusum_snd_take (xs : List (ℕ × ℚ)) (m s t : ℚ) (i : ℕ) :
    ∃ r, (cusum xs m s t).2 = (cusum (xs.take i) m s t).2 ++ r := by
  refine ⟨(cusumGo m s t
    (cusumFinal m s (0, 0) ((xs.take i).map Prod.snd)) (xs.drop i)).2, ?_⟩
  show (cusumGo m s t (0, 0) xs).2 = _
  conv_lhs => rw [← List.take_append_drop i xs]
  rw [cusumGo_append]
  rfl

/-! Tie-breaking analysis: among all orderings of the input pairs that are
sorted by score alone, the tuple-sorted ordering (non-anomalies first inside
every tied group) minimizes the number of true labels in every prefix. -/

lemma cnt_take_succ (x : ℚ × Bool) (l : List (ℚ × Bool)) (k : ℕ) :
    cntSnd ((x :: l).take (k + 1)) =
      cntSnd (l.take k) + (if x.2 then 1 else 0) := by
  simp [cntSnd, List.take_succ_cons, List.countP_cons]

lemma cnt_take_replace (P S : List (ℚ × Bool)) (x y : ℚ × Bool) (k : ℕ) :
    cntSnd ((P ++ y :: S).take k) ≤ cntSnd ((P ++ x :: S).take k) + 1 := by
  induction P generalizing k with
  | nil =>
    cases k with
    | zero => simp [cntSnd]
    | succ k' =>
      simp only [List.nil_append, cnt_take_succ]
      split <;> split <;> omega
  | cons p P' ih =>
    cases k with
    | zero => simp [cntSnd]
    | succ k' =>
      simp only [List.cons_append, cnt_take_succ]
      have := ih k'
      omega

lemma lexSorted_take_cnt_min (A : List (ℚ × Bool)) :
    ∀ (B : List (ℚ × Bool)), A.Sorted tupLe → B.Sorted scoreLe → A ~ B →
      ∀ n, cntSnd (A.take n) ≤ cntSnd (B.take n) := by
  induction A with
  | nil =>
    intro B _ _ hperm n
    rw [hperm.symm.eq_nil]
  | cons a A' ih =>
    intro B hA hB hperm n
    cases B with
    | nil => exact (List.cons_ne_nil _ _ hperm.eq_nil).elim
    | cons b B' =>
      cases n with
      | zero => simp [cntSnd]
      | succ k =>
        have hA' : A'.Sorted tupLe := (List.sorted_cons.mp hA).2
        have haA : ∀ x ∈ A', tupLe a x := (List.sorted_cons.mp hA).1
        have hB' : B'.Sorted scoreLe := (List.pairwise_cons.mp hB).2
        have hbB : ∀ x ∈ B', scoreLe b x := (List.pairwise_cons.mp hB).1
        have hbmem : b ∈ a :: A' := hperm.symm.subset (List.mem_cons_self b B')
        have hamem : a ∈ b :: B' := hperm.subset (List.mem_cons_self a A')
        have hab1 : a.1 = b.1 := by
          refine le_antisymm ?_ ?_
          · rcases List.mem_cons.mp hbmem with h | h
            · exact (congrArg Prod.fst h).ge
            · rcases haA b h with h' | ⟨h', _⟩
              · exact h'.le
              · exact h'.le
          · rcases List.mem_cons.mp hamem with h | h
            · exact (congrArg Prod.fst h).ge
            · exact hbB a h
        by_cases hab : a = b
        · subst hab
          have hk := ih B' hA' hB' hperm.cons_inv k
          rw [cnt_take_succ, cnt_take_succ]
          omega
        · have hbA' : b ∈ A' := by
            rcases List.mem_cons.mp hbmem with h | h
            · exact absurd h.symm hab
            · exact h
          have himp : a.2 → b.2 := by
            rcases haA b hbA' with h' | ⟨_, h'⟩
            · rw [hab1] at h'
              exact absurd h' (lt_irrefl _)
            · exact h'
          have hne2 : a.2 ≠ b.2 := fun h2 => hab (Prod.ext hab1 h2)
          have ha2 : a.2 = false := by
            cases h2 : a.2
            · rfl
            · exact absurd ((himp h2).symm ▸ h2) (h2 ▸ hne2)
          have hb2 : b.2 = true := by
            cases h2 : b.2
            · exact absurd (ha2.trans h2.symm) hne2
            · rfl
          have haB' : a ∈ B' := by
            rcases List.mem_cons.mp hamem with h | h
            · exact absurd h hab
            · exact h
          obtain ⟨P, S, hPS⟩ := List.append_of_mem haB'
          have hB2sorted : (P ++ b :: S).Sorted scoreLe := by
            rw [hPS] at hB'
            rw [List.Sorted, List.pairwise_append] at hB' ⊢
            obtain ⟨h1, h2, h3⟩ := hB'
            rw [List.pairwise_cons] at h2 ⊢
            refine ⟨h1, ⟨?_, h2.2⟩, ?_⟩
            · intro x hx
              have := h2.1 x hx
              unfold scoreLe at this ⊢
              rw [← hab1]
              exact this
            · intro u hu v hv
              rcases List.mem_cons.mp hv with h | h
              · subst h
                have := h3 u hu a (List.mem_cons_self a S)
                unfold scoreLe at this ⊢
                rw [← hab1]
                exact this
              · exact h3 u hu v (List.mem_cons_of_mem _ h)
          have hpermA' : A' ~ P ++ b :: S := by
            have h1 : B' ~ a :: (P ++ S) := hPS ▸ List.perm_middle
            have h2 : a :: A' ~ b :: (a :: (P ++ S)) :=
              hperm.trans (List.Perm.cons b h1)
            have h3 : a :: A' ~ a :: (b :: (P ++ S)) :=
              h2.trans (List.Perm.swap a b _)
            exact h3.cons_inv.trans List.perm_middle.symm
          have hmin := ih (P ++ b :: S) hA' hB2sorted hpermA' k
          have hshift := cnt_take_replace P S a b k
          rw [cnt_take_succ, cnt_take_succ, ha2, hb2, hPS]
          simp only [if_true, if_false, Bool.false_eq_true]
          omega

/-! Claim theorems. -/

/-- C5: for every series and parameters, cusum processes the points in time
order from (0, 0) with the updates high_sum = max(0, high_sum + value - mean
- shift) and low_sum = min(0, low_sum + value - mean + shift); the augmented
series records the running (high_sum, low_sum) pair for every input point,
and a point appears in the anomaly list exactly when, immediately after its
update, high_sum > threshold or low_sum < -threshold. -/
theorem C5_cusum_runs_spec (data : List (ℕ × ℚ)) (mean shift threshold : ℚ) :
    (cusum data mean shift threshold).1 =
      data.zip (cusumSpecSums mean shift (data.map Prod.snd)) ∧
    (cusum data mean shift threshold).2 =
      ((data.zip (cusumSpecSums mean shift (data.map Prod.snd))).filter
        (cusumFlag threshold)).map Prod.fst := by
  have h1 : (cusumGo mean shift threshold (0, 0) data).1 =
      cusumSpecSums mean shift (data.map Prod.snd) := by
    rw [cusumGo_fst]
    rfl
  constructor
  · show data.zip (cusumGo mean shift threshold (0, 0) data).1 = _
    rw [h1]
  · show (cusumGo mean shift threshold (0, 0) data).2 = _
    rw [cusumGo_snd, h1]

/-- C6 counterexample: with shift = -1 (negative) the code does not fail with
InvalidArgument as claimed: it succeeds and returns a flagged point, while
the specified behaviour is the error. -/
theorem C6_counterexample :
    cusum [(0, 5)] 0 (-1) 1 = ([((0, 5), 6, 0)], [(0, 5)]) ∧
    detect_spec [(0, 5)] 0 (-1) 1 = Except.error "InvalidArgument" := by
  constructor
  · norm_num [cusum, cusumGo]
  · norm_num [detect_spec]

/-- C6 amended: cusum performs no validation of shift or threshold and never
fails; on any series in which no point's recorded running sums cross the
threshold it returns an empty anomaly list. -/
theorem C6_no_crossing_empty (data : List (ℕ × ℚ)) (mean shift threshold : ℚ)
    (h : ∀ p ∈ (cusum data mean shift threshold).1,
      p.2.1 ≤ threshold ∧ -threshold ≤ p.2.2) :
    (cusum data mean shift threshold).2 = [] := by
  show (cusumGo mean shift threshold (0, 0) data).2 = []
  rw [cusumGo_snd]
  rw [List.map_eq_nil_iff, List.filter_eq_nil_iff]
  intro p hp
  have hp' := h p hp
  unfold cusumFlag
  simp only [decide_eq_true_eq]
  push_neg
  exact hp'

/-- Witness for C6 amended: an all-zero series with threshold 1 has no
crossing and yields an empty anomaly list. -/
theorem C6_no_crossing_empty_witness :
    (cusum [(0, 0), (1, 0)] 0 0 1).2 = [] := by
  apply C6_no_crossing_empty
  norm_num [cusum, cusumGo]

/-- C9: the CUSUM detect operation is prefix-determined: two series agreeing
on their first i points have identical recorded running sums on those
points, and both anomaly lists begin with exactly the anomaly list of the
common prefix, so a point's classification never depends on later values. -/
theorem C9_cusum_past_determined (xs ys : List (ℕ × ℚ)) (m s t : ℚ)
    (i : ℕ) (h : xs.take i = ys.take i) :
    (cusum xs m s t).1.take i = (cusum ys m s t).1.take i ∧
    ∃ r₁ r₂, (cusum xs m s t).2 = (cusum (xs.take i) m s t).2 ++ r₁ ∧
      (cusum ys m s t).2 = (cusum (xs.take i) m s t).2 ++ r₂ := by
  refine ⟨?_, ?_⟩
  · rw [cusum_fst_take, cusum_fst_take, h]
  · obtain ⟨r₁, h₁⟩ := cusum_snd_take xs m s t i
    obtain ⟨r₂, h₂⟩ := cusum_snd_take ys m s t i
    exact ⟨r₁, r₂, h₁, by rw [h]; exact h₂⟩

/-- Witness for C9: two series sharing their first point. -/
theorem C9_cusum_past_determined_witness :
    (cusum [(0, 1), (1, 2)] 0 0 0).1.take 1 =
      (cusum [(0, 1), (1, 3)] 0 0 0).1.take 1 ∧
    ∃ r₁ r₂,
      (cusum [(0, 1), (1, 2)] 0 0 0).2 =
        (cusum ([(0, 1), (1, 2)].take 1) 0 0 0).2 ++ r₁ ∧
      (cusum [(0, 1), (1, 3)] 0 0 0).2 =
        (cusum ([(0, 1), (1, 2)].take 1) 0 0 0).2 ++ r₂ :=
  C9_cusum_past_determined [(0, 1), (1, 2)] [(0, 1), (1, 3)] 0 0 0 1 rfl

/-- C1: the code contradicts the claimed contract.  custom_average_precision
feeds the SORTED labels together with the UNSORTED scores back into
precision_at_n, so labels are permuted twice; on labels [T,F,F] with scores
[2,3,1] the code returns 0 while the claimed mean of P@n over anomaly ranks
is 1/2.  On the notebook's four-row example (whose scores happen to be
already sorted, hiding the slip) the code does return (1 + 2/3)/2 = 5/6. -/
theorem C1_average_precision_diverges :
    custom_average_precision [true, false, false] [2, 3, 1] =
      Except.ok (PyFloat.num 0) ∧
    average_precision_spec [true, false, false] [2, 3, 1] = some (1/2) ∧
    custom_average_precision [true, false, true, false]
      [-3598/100000, -33510/1000000, -5384/1000000, 330/1000000] =
      Except.ok (PyFloat.num (5/6)) := by
  refine ⟨?_, ?_, ?_⟩
  · norm_num [custom_average_precision, precision_at_n, pySorted, countTrue,
      tupLe, npDiv]
    simp [List.range_succ]
  · norm_num [average_precision_spec, pySorted, countTrue, tupLe,
      List.range_succ]
  · norm_num [custom_average_precision, precision_at_n, pySorted, countTrue,
      tupLe, npDiv]
    simp [List.range_succ]
    norm_num

/-- C2 counterexample: on mismatched lengths (labels of length 1, scores of
length 2) the code does not fail with InvalidArgument as claimed: it returns
a value (still of length len(scores) because of the zip truncation), while
the specified behaviour is the error. -/
theorem C2_counterexample :
    precision_at_n_spec [true] [0, 1] 0 = Except.error "InvalidArgument" ∧
    precision_at_n [true] [0, 1] 0 = [1, 1/2] := by
  constructor
  · norm_num [precision_at_n_spec]
  · norm_num [precision_at_n, pySorted, countTrue, tupLe]
    simp [List.range_succ]
    norm_num

/-- C2 amended: precision_at_n performs no input validation and never fails:
a negative n_max yields the empty list, the output length is always
n_max.toNat (len(scores) when n_max = 0) even out of range, and mismatched
labels beyond len(scores) are silently dropped by the zip truncation. -/
theorem C2_no_validation (labels : List Bool) (scores : List ℚ)
    (n_max : ℤ) :
    (n_max < 0 → precision_at_n labels scores n_max = []) ∧
    (precision_at_n labels scores n_max).length =
      (if n_max = 0 then (scores.length : ℤ) else n_max).toNat ∧
    precision_at_n labels scores n_max =
      precision_at_n (labels.take scores.length) scores n_max := by
  refine ⟨?_, precision_at_n_length labels scores n_max, ?_⟩
  · intro h
    unfold precision_at_n
    rw [if_neg (by omega)]
    simp [Int.toNat_of_nonpos (le_of_lt h)]
  · unfold precision_at_n
    rw [zip_take_length]

/-- Witness for C2 amended: a negative n_max returns the empty list. -/
theorem C2_no_validation_witness :
    precision_at_n [true, false] [0, 1] (-3) = [] :=
  (C2_no_validation [true, false] [0, 1] (-3)).1 (by norm_num)

/-- C3: for equal-length inputs and every n in 1..n_max (n_max defaulting to
the full length), the n-th entry of precision_at_n is the fraction of true
labels among the first n entries of the (score, label) pairs sorted
ascending by score; on the notebook's four-row example the result is
[1, 1/2, 2/3, 1/2]. -/
theorem C3_precision_at_n_entries :
    (∀ (labels : List Bool) (scores : List ℚ) (n_max : ℤ),
      labels.length = scores.length →
      (n_max = 0 ∨ (0 < n_max ∧ n_max ≤ (scores.length : ℤ))) →
      ∀ n : ℕ, 1 ≤ n →
        (n : ℤ) ≤ (if n_max = 0 then (scores.length : ℤ) else n_max) →
        (precision_at_n labels scores n_max)[n - 1]? =
          some ((countTrue
            (((pySorted (scores.zip labels)).map Prod.snd).take n) : ℚ) /
            n)) ∧
    precision_at_n [true, false, true, false]
      [-3598/100000, -33510/1000000, -5384/1000000, 330/1000000] 0 =
      [1, 1/2, 2/3, 1/2] := by
  constructor
  · intro labels scores n_max _ _ n hn hup
    have hk : n - 1 <
        (if n_max = 0 then (scores.length : ℤ) else n_max).toNat := by
      by_cases hz : n_max = 0
      · rw [if_pos hz] at hup ⊢
        omega
      · rw [if_neg hz] at hup ⊢
        omega
    have hval := precision_at_n_getElem labels scores n_max (n - 1) hk
    have h1 : n - 1 + 1 = n := by omega
    have hd : ((n - 1 : ℕ) : ℚ) + 1 = (n : ℚ) := by
      rw [Nat.cast_sub hn]
      push_cast
      ring
    rw [hval, h1, hd]
  · norm_num [precision_at_n, pySorted, countTrue, tupLe]
    simp [List.range_succ]
    norm_num

/-- Witness for C3: the third entry on the four-row example equals 2/3. -/
theorem C3_precision_at_n_entries_witness :
    (precision_at_n [true, false, true, false]
      [-3598/100000, -33510/1000000, -5384/1000000, 330/1000000] 0)[2]? =
      some (2/3) := by
  have h := C3_precision_at_n_entries.1 [true, false, true, false]
    [-3598/100000, -33510/1000000, -5384/1000000, 330/1000000] 0
    (by norm_num) (Or.inl rfl) 3 (by norm_num) (by norm_num)
  rw [h]
  norm_num [pySorted, countTrue, tupLe]

/-- C4: for equal-length inputs and n_max in the specified valid range, the
output of precision_at_n has length n_max (the full input length when n_max
is zero), and every entry lies in [0, 1]. -/
theorem C4_precision_at_n_invariants (labels : List Bool) (scores : List ℚ)
    (n_max : ℤ) (hlen : labels.length = scores.length) (hpos : 0 ≤ n_max) :
    (precision_at_n labels scores n_max).length =
      (if n_max = 0 then (scores.length : ℤ) else n_max).toNat ∧
    ∀ x ∈ precision_at_n labels scores n_max, 0 ≤ x ∧ x ≤ 1 :=
  ⟨precision_at_n_length labels scores n_max,
   precision_at_n_mem_unit labels scores n_max⟩

/-- Witness for C4 on the four-row example. -/
theorem C4_precision_at_n_invariants_witness :
    (precision_at_n [true, false, true, false]
        [-3598/100000, -33510/1000000, -5384/1000000, 330/1000000] 0).length =
      (if (0 : ℤ) = 0 then
        (([-3598/100000, -33510/1000000, -5384/1000000, 330/1000000] :
          List ℚ).length : ℤ) else 0).toNat ∧
    ∀ x ∈ precision_at_n [true, false, true, false]
        [-3598/100000, -33510/1000000, -5384/1000000, 330/1000000] 0,
      0 ≤ x ∧ x ≤ 1 :=
  C4_precision_at_n_invariants [true, false, true, false]
    [-3598/100000, -33510/1000000, -5384/1000000, 330/1000000] 0
    (by norm_num) le_rfl

/-- C7 counterexample: with no true label the code performs the NumPy 0/0
division and returns nan; it does not fail with a DivisionUndefined error.  -/
theorem C7_counterexample :
    custom_average_precision [false, false] [0, 1] =
      Except.ok PyFloat.nan := by
  norm_num [custom_average_precision, precision_at_n, pySorted, countTrue,
    tupLe, npDiv]
  simp [List.range_succ]

/-- C7 amended: on every nonempty equal-length input whose labels contain no
true entry, custom_average_precision returns the NumPy nan value (from the
0/0 division) rather than raising any error. -/
theorem C7_zero_anomalies_nan (labels : List Bool) (scores : List ℚ)
    (hlen : labels.length = scores.length) (hne : labels ≠ [])
    (hzero : countTrue labels = 0) :
    custom_average_precision labels scores = Except.ok PyFloat.nan := by
  have hsortlen : (pySorted (scores.zip labels)).length = labels.length := by
    rw [(pySorted_perm _).length_eq, List.length_zip, ← hlen, min_self]
  have h0 : countTrue ((pySorted (scores.zip labels)).map Prod.snd) = 0 :=
    (countTrue_pySorted_zip labels scores hlen).trans hzero
  have hfalse : ∀ b ∈ (pySorted (scores.zip labels)).map Prod.snd,
      b = false := by
    intro b hb
    have := List.countP_eq_zero.mp h0 b hb
    simpa using this
  have hcond : (pySorted (scores.zip labels)).isEmpty = false := by
    rw [← Bool.not_eq_true, List.isEmpty_iff]
    intro hnil
    apply hne
    rw [hnil] at hsortlen
    exact List.length_eq_zero.mp hsortlen.symm
  simp only [custom_average_precision, hcond, Bool.false_eq_true, if_false]
  congr 1
  rw [indicator_prod_sum_zero _ _ hfalse, indicator_sum, h0]
  simp [npDiv]

/-- Witness for C7 amended. -/
theorem C7_zero_anomalies_nan_witness :
    custom_average_precision [false] [7] = Except.ok PyFloat.nan :=
  C7_zero_anomalies_nan [false] [7] rfl (by simp)
    (by simp [countTrue])

/-- C8 counterexample: at anomaly_fraction = 1 the NumPy division yields nan
(raw = 1) or a signed infinity (raw ≠ 1); it does not fail with a
DivisionUndefined error. -/
theorem C8_counterexample :
    adj_ave_precision 1 1 = PyFloat.nan ∧
    adj_ave_precision 2 1 = PyFloat.inf := by
  constructor <;> norm_num [adj_ave_precision, npDiv]

/-- C8 amended: for anomaly_fraction ≠ 1 the adjusted score equals
(raw - frac) / (1 - frac), the random baseline raw = frac maps to 0 and the
perfect value raw = 1 maps to 1; at anomaly_fraction = 1 the division
produces a NumPy non-finite value instead of an error. -/
theorem C8_adjusted_score (raw frac : ℚ) (h : frac ≠ 1) :
    adj_ave_precision raw frac = PyFloat.num ((raw - frac) / (1 - frac)) ∧
    adj_ave_precision frac frac = PyFloat.num 0 ∧
    adj_ave_precision 1 frac = PyFloat.num 1 := by
  have h1 : 1 - frac ≠ 0 := fun h0 => h (by linarith)
  refine ⟨?_, ?_, ?_⟩
  · simp [adj_ave_precision, npDiv, h1]
  · simp [adj_ave_precision, npDiv, h1]
  · simp [adj_ave_precision, npDiv, h1, div_self h1]

/-- Witness for C8 amended at raw = 2, frac = 1/2. -/
theorem C8_adjusted_score_witness :
    adj_ave_precision 2 (1/2) = PyFloat.num ((2 - 1/2) / (1 - 1/2)) ∧
    adj_ave_precision (1/2) (1/2) = PyFloat.num 0 ∧
    adj_ave_precision 1 (1/2) = PyFloat.num 1 :=
  C8_adjusted_score 2 (1/2) (by norm_num)

/-- C10: the sort used by precision_at_n compares (score, label) tuples, so
inside every group of tied scores the non-anomalies (False) come before the
anomalies (True); consequently, among all orderings of the pairs sorted by
score alone, the computed P@n value is minimal (pessimistic) at every
rank. -/
theorem C10_tie_break (labels : List Bool) (scores : List ℚ) :
    (∀ (i j : Fin (pySorted (scores.zip labels)).length), i < j →
      ((pySorted (scores.zip labels)).get i).1 =
        ((pySorted (scores.zip labels)).get j).1 →
      (((pySorted (scores.zip labels)).get i).2 →
        ((pySorted (scores.zip labels)).get j).2)) ∧
    (∀ (B : List (ℚ × Bool)), (scores.zip labels).Perm B →
      B.Sorted scoreLe →
      ∀ (n : ℕ) (x : ℚ), 1 ≤ n →
        (precision_at_n labels scores 0)[n - 1]? = some x →
        x ≤ (cntSnd (B.take n) : ℚ) / n) := by
  constructor
  · intro i j hij heq
    have h := (pySorted_sorted (scores.zip labels)).rel_get_of_lt hij
    rcases h with h' | ⟨_, h'⟩
    · rw [heq] at h'
      exact absurd h' (lt_irrefl _)
    · exact h'
  · intro B hperm hsort n x hn hx
    have hup : n - 1 < (precision_at_n labels scores 0).length := by
      by_contra hge
      push_neg at hge
      rw [List.getElem?_eq_none hge] at hx
      cases hx
    rw [precision_at_n_length] at hup
    simp only [if_pos rfl, Int.toNat_ofNat, Int.toNat_natCast] at hup
    have hval := precision_at_n_getElem labels scores 0 (n - 1)
      (by simpa using hup)
    rw [hval] at hx
    have hxx := (Option.some.inj hx).symm
    have h1 : n - 1 + 1 = n := by omega
    have hd : ((n - 1 : ℕ) : ℚ) + 1 = (n : ℚ) := by
      rw [Nat.cast_sub hn]
      push_cast
      ring
    rw [hxx, h1, hd]
    have h2 : countTrue
        (((pySorted (scores.zip labels)).map Prod.snd).take n) =
        cntSnd ((pySorted (scores.zip labels)).take n) := by
      rw [← List.map_take]
      unfold countTrue cntSnd
      rw [List.countP_map]
      rfl
    rw [h2]
    have hmin := lexSorted_take_cnt_min (pySorted (scores.zip labels)) B
      (pySorted_sorted _) hsort ((pySorted_perm _).trans hperm) n
    have hnpos : (0 : ℚ) < n := by
      exact_mod_cast hn
    exact (div_le_div_right hnpos).mpr (Nat.cast_le.mpr hmin)

/-- Witness for C10 on a fully tied pair of scores. -/
theorem C10_tie_break_witness :
    (0 : ℚ) ≤ (cntSnd (([((1 : ℚ), true), (1, false)]).take 1) : ℚ) / 1 := by
  have h := (C10_tie_break [true, false] [1, 1]).2
    [((1 : ℚ), true), (1, false)] (List.Perm.refl _)
    (by simp [List.Sorted, scoreLe]) 1 0 le_rfl
    (by norm_num [precision_at_n, pySorted, countTrue, tupLe])
  exact h

end AnomalyDetection
